import Mathlib

set_option maxRecDepth 100000

/-!
Formal model of the scapis-dashboard publication pipeline:
`scripts/fetch_publications.py` (collector) and `scripts/generate_dashboard.py`
(renderer), translated as a shallow embedding.  Python dicts are modelled as
insertion-ordered association lists, strings as `String`, records as
structures; the XML / network layers are modelled by passing their extracted
results as explicit inputs.
-/

/-- A raw publication record as produced by `parse_pubmed_article` or
`try_scapis_website` (a Python dict; missing fields default like `.get`). -/
structure Pub where
  pmid : String := ""
  title : String := ""
  journal : String := ""
  journalAbbr : String := ""
  year : String := ""
  authors : List String := []
  firstAuthor : String := ""
  authorCount : Nat := 0
  keywords : List String := []
  meshTerms : List String := []
  doi : String := ""
  abstract : String := ""
deriving DecidableEq, Repr

/-- Python `s.lower().strip()`, the normalization applied to DOI and title
before they are used as deduplication keys in `merge_publications`. -/
def normKey (s : String) : String := s.toLower.trim

/-- Python `doi_norm or title_norm` (line 259 / line 285 of
`fetch_publications.py`): the normalized DOI when non-empty, else the
normalized title. -/
def pubKey (p : Pub) : String :=
  if normKey p.doi ≠ "" then normKey p.doi else normKey p.title

/-- Python `k in merged` for the insertion-ordered dict `merged`. -/
def dcontains (k : String) (d : List (String × Pub)) : Bool :=
  d.any (fun kv => kv.1 = k)

/-- Python `merged[k] = v`: overwrite in place when the key exists,
append otherwise (dict insertion-order semantics). -/
def dinsert (k : String) (v : Pub) (d : List (String × Pub)) : List (String × Pub) :=
  if dcontains k d then d.map (fun kv => if kv.1 = k then (k, v) else kv)
  else d ++ [(k, v)]

/-- One iteration of the primary (PubMed) loop of `merge_publications`
(lines 258-261): insert under the identity key when it is non-empty. -/
def primaryInsert (d : List (String × Pub)) (p : Pub) : List (String × Pub) :=
  if pubKey p ≠ "" then dinsert (pubKey p) p d else d

/-- The fuzzy title check of `merge_publications` (lines 275-282): some
existing dict key whose first 50 characters coincide with the first 50
characters of the candidate's normalized title, both keys non-empty. -/
def fuzzyDup (titleKey : String) (d : List (String × Pub)) : Bool :=
  d.any (fun kv =>
    decide (titleKey ≠ "") && decide (kv.1 ≠ "") &&
      (decide (titleKey.take 50 = kv.1.take 50) ||
       decide (kv.1.take 50 = titleKey.take 50)))

/-- One iteration of the secondary (SCAPIS-website) loop of
`merge_publications` (lines 265-286). -/
def secondaryStep (d : List (String × Pub)) (p : Pub) : List (String × Pub) :=
  let doiKey := normKey p.doi
  let titleKey := normKey p.title
  if doiKey ≠ "" ∧ dcontains doiKey d = true then d
  else if titleKey ≠ "" ∧ dcontains titleKey d = true then d
  else if fuzzyDup titleKey d = true then d
  else if doiKey ≠ "" ∨ titleKey ≠ "" then
    dinsert (if doiKey ≠ "" then doiKey else titleKey) p d
  else d

/-- `merge_publications` (lines 253-291): primary records first, then
secondary records, returning `list(merged.values())`. -/
def merge_publications (pubmed_pubs scapis_pubs : List Pub) : List Pub :=
  (scapis_pubs.foldl secondaryStep (pubmed_pubs.foldl primaryInsert [])).map Prod.snd

/-- Substring test on character lists, modelling Python `pat in hay`. -/
def hasSubAux (pat : List Char) : List Char → Bool
  | [] => pat.isEmpty
  | c :: t => pat.isPrefixOf (c :: t) || hasSubAux pat t

/-- Python `pat in hay` for strings (substring containment). -/
def strContains (hay pat : String) : Bool := hasSubAux pat.data hay.data

/-- The fixed classification table `TOPIC_KEYWORDS` (lines 20-41),
in source order. -/
def TOPIC_KEYWORDS : List (String × List String) :=
  [("Cardiovascular", ["cardiovascular", "cardiac", "heart", "coronary", "atrial", "aortic",
                       "atherosclerosis", "myocardial", "echocardiograph", "vascular",
                       "artery", "arterial", "carotid", "plaque", "stroke", "hypertension",
                       "blood pressure", "fibrillation", "cardiometabolic"]),
   ("Respiratory",    ["pulmonary", "lung", "respiratory", "airway", "copd", "asthma",
                       "bronch", "emphysema", "spirometr", "airflow", "ventilat"]),
   ("Imaging",        ["imaging", "ct ", "computed tomography", "mri", "magnetic resonance",
                       "ccta", "scan", "radiograph", "angiograph", "ultrasound",
                       "echocardiograph", "densitometr"]),
   ("Metabolic",      ["metabol", "diabetes", "insulin", "glucose", "lipid", "cholesterol",
                       "triglyceride", "adipos", "obesity", "bmi", "body mass",
                       "fatty liver", "hepatic steatosis", "nafld"]),
   ("Risk Factors",   ["risk factor", "smoking", "alcohol", "physical activity", "exercise",
                       "sedentary", "diet", "sleep", "socioeconomic", "education",
                       "lifestyle", "occupation"]),
   ("Biomarkers",     ["biomarker", "proteom", "genom", "genetic", "snp", "gwas",
                       "polygenic", "mendelian", "transcriptom", "metabolom",
                       "troponin", "nt-probnp", "crp", "interleukin", "cytokine"]),
   ("Mental Health",  ["mental", "depression", "anxiety", "psychiatric", "psychological",
                       "stress", "wellbeing", "well-being", "insomnia", "cogniti"])]

/-- The search text of `classify_topics` (line 243):
lowercased title + " " + abstract. -/
def classifyText (p : Pub) : String :=
  (p.title ++ " " ++ p.abstract).toLower

/-- `classify_topics` (lines 241-250). -/
def classify_topics (p : Pub) : List String :=
  let text := classifyText p
  let topics :=
    (TOPIC_KEYWORDS.filter (fun tk => tk.2.any (fun kw => strContains text kw))).map Prod.fst
  if topics = [] then ["Other"] else topics

/-- A record of the dashboard output JSON (`build_dashboard_data`,
lines 310-321). -/
structure DashPub where
  title : String := ""
  year : String := ""
  journal : String := ""
  firstAuthor : String := ""
  authorCount : Nat := 0
  authors : String := ""
  topics : List String := []
  doi : String := ""
  pmid : String := ""
  abstract : String := ""
deriving DecidableEq, Repr

/-- The per-record body of `build_dashboard_data` (lines 297-321), in the
branch where `authors` is a list (both sources construct it as a list). -/
def toDashboard (p : Pub) : DashPub :=
  { title := p.title
    year := p.year
    journal := p.journal
    firstAuthor := match p.authors with
      | [] => p.firstAuthor
      | a :: _ => a
    authorCount := if p.authors = [] then p.authorCount else p.authors.length
    authors := String.intercalate ", " p.authors
    topics := classify_topics p
    doi := p.doi
    pmid := p.pmid
    abstract := p.abstract }

/-- The comparison realizing Python
`sort(key=lambda x: (x["year"], x["title"]), reverse=True)` (line 324):
`a` may precede `b` exactly when the key pair of `b` is `≤` the key pair
of `a` in lexicographic string order (Python tuple comparison). -/
def dashLe (a b : DashPub) : Bool :=
  decide (b.year < a.year ∨ (b.year = a.year ∧ b.title ≤ a.title))

/-- `build_dashboard_data` (lines 294-325), returning the `publications`
array: mapped records, stably sorted descending by `(year, title)`. -/
def build_dashboard_data (pubs : List Pub) : List DashPub :=
  (pubs.map toDashboard).mergeSort dashLe

/-! ### Renderer (`generate_dashboard.py`, `main`, lines 764-791) -/

/-- The non-empty year strings of the loaded publications
(the generator of `set(p["year"] for p in pubs if p.get("year"))`). -/
def nonEmptyYears (pubs : List DashPub) : List String :=
  (pubs.filter (fun p => p.year ≠ "")).map DashPub.year

/-- Python `sorted(set(...))` (line 774): the distinct non-empty years in
ascending string order. -/
def sortedYears (pubs : List DashPub) : List String :=
  ((nonEmptyYears pubs).dedup).mergeSort (fun a b => decide (a ≤ b))

/-- Line 775: `f"{years[0]}–{years[-1]}" if years else "N/A"`. -/
def year_range (pubs : List DashPub) : String :=
  match sortedYears pubs with
  | [] => "N/A"
  | y :: rest => y ++ "–" ++ ((y :: rest).getLast (List.cons_ne_nil y rest))

/-- Lines 779-785: placeholder substitution into the template.  The data
payload serialization and the formatted date are opaque inputs. -/
def render_dashboard (template dataJson updateDate : String)
    (pubs : List DashPub) : String :=
  (((template.replace "%%DATA%%" dataJson).replace "%%PUB_COUNT%%"
      (toString pubs.length)).replace "%%YEAR_RANGE%%"
      (year_range pubs)).replace "%%UPDATE_DATE%%" updateDate

/-! ### `parse_pubmed_article` (lines 102-184)

The XML library calls (`find`, `findtext`, `get`, `itertext`) are external;
their results are the fields of `ArticleXml`.  An `Option` field is `none`
when the corresponding element is absent; a `findtext(_, "")` result is a
plain string (already defaulted to `""`). -/

/-- The extracted content of one `PubmedArticle` element. -/
structure ArticleXml where
  pmid : String := ""
  title : String := ""
  /-- `Journal` element: (`Title`, `ISOAbbreviation`) findtext results. -/
  journal : Option (String × String) := none
  /-- `PubDate` element: (`Year`, `MedlineDate`) findtext results. -/
  pubDate : Option (String × String) := none
  /-- `AuthorList` element: (`LastName`, `Initials`) findtext results. -/
  authorList : Option (List (String × String)) := none
  /-- All `ArticleId` elements: (`IdType` attribute, text content). -/
  articleIds : List (String × Option String) := []
  /-- All `Keyword` elements' text contents. -/
  keywordTexts : List (Option String) := []
  /-- All `MeshHeading` elements' `DescriptorName` findtext results. -/
  meshDescriptors : List String := []
  /-- `Abstract` element: per `AbstractText` section, (`Label` attribute
  defaulted to `""`, joined `itertext` before `.strip()`). -/
  abstractSections : Option (List (String × String)) := none
deriving DecidableEq, Repr

/-- The first occurrence of the pattern `20\d{2}` in a character list
(`re.search(r"(20\d{2})", medline_date)`, line 126). -/
def findYear20 : List Char → Option String
  | [] => none
  | c0 :: rest =>
    if _h : c0 = '2' then
      match rest with
      | '0' :: c :: d :: _ =>
        if c.isDigit ∧ d.isDigit then some (String.mk ['2', '0', c, d])
        else findYear20 rest
      | _ => findYear20 rest
    else findYear20 rest

/-- The DOI loop of `parse_pubmed_article` (lines 141-144): start from `""`
and overwrite with `eid.text or ""` at every id entry of type `"doi"`. -/
def parseDoiIds (ids : List (String × Option String)) : String :=
  ids.foldl (fun doi eid => if eid.1 = "doi" then eid.2.getD "" else doi) ""

/-- The abstract loop of `parse_pubmed_article` (lines 158-166): build the
`parts` list section by section, then join with a single space. -/
def parseAbstractSections (sections : List (String × String)) : String :=
  String.intercalate " "
    (sections.foldl (fun parts sec =>
      let label := sec.1
      let text := sec.2.trim
      if label ≠ "" ∧ text ≠ "" then parts ++ [label ++ ": " ++ text]
      else if text ≠ "" then parts ++ [text]
      else parts) [])

/-- `parse_pubmed_article` (lines 102-184) on an article that has an
`Article` element (otherwise the function returns `None`). -/
def parse_pubmed_article (a : ArticleXml) : Pub :=
  let year : String :=
    match a.pubDate with
    | none => ""
    | some (y, md) =>
      if y ≠ "" then y
      else if md ≠ "" then (findYear20 md.data).getD ""
      else ""
  let authors : List String :=
    match a.authorList with
    | none => []
    | some entries =>
      entries.foldl (fun acc e =>
        if e.1 ≠ "" then acc ++ [(e.1 ++ " " ++ e.2).trim] else acc) []
  { pmid := a.pmid
    title := a.title
    journal := match a.journal with | none => "" | some j => j.1
    journalAbbr := match a.journal with | none => "" | some j => j.2
    year := year
    authors := authors
    firstAuthor := match authors with | [] => "" | x :: _ => x
    authorCount := authors.length
    keywords := a.keywordTexts.filterMap (fun o =>
      match o with
      | none => none
      | some s => if s = "" then none else some s)
    meshTerms := a.meshDescriptors.filter (fun s => s ≠ "")
    doi := parseDoiIds a.articleIds
    abstract := match a.abstractSections with
      | none => ""
      | some secs => parseAbstractSections secs }

/-! ### `fetch_url` (lines 44-56)

The network is an oracle `outcomes : Nat → Option String` giving, for each
attempt index, either a response body or a failure (a raised-and-caught
exception).  The model returns the function result together with the number
of attempts made and the list of sleep durations performed. -/

/-- The retry loop of `fetch_url`, from attempt index `attempt`. -/
def fetchGo (outcomes : Nat → Option String) (retries delay attempt : Nat) :
    Option String × Nat × List Nat :=
  if _h : attempt < retries then
    match outcomes attempt with
    | some body => (some body, attempt + 1, [])
    | none =>
      if attempt < retries - 1 then
        let r := fetchGo outcomes retries delay (attempt + 1)
        (r.1, r.2.1, delay * (attempt + 1) :: r.2.2)
      else (none, attempt + 1, [])
  else (none, attempt, [])
termination_by retries - attempt
decreasing_by omega

/-- `fetch_url` (lines 44-56): result, attempts made, sleeps performed. -/
def fetch_url (outcomes : Nat → Option String) (retries delay : Nat) :
    Option String × Nat × List Nat :=
  fetchGo outcomes retries delay 0

/-! ### Concrete example records used by witnesses -/

/-- Invariant of the merge dict: every entry is stored under the identity
key of its record, and that key is non-empty. -/
def goodDict (d : List (String × Pub)) : Prop :=
  ∀ kv ∈ d, kv.1 = pubKey kv.2 ∧ kv.1 ≠ ""

def pubPrimX : Pub := { doi := "10.1/x", title := "Alpha", abstract := "pubmed abstract" }

def pubSecX : Pub := { doi := "10.1/X ", title := "Alpha", abstract := "secondary abstract" }

def pubHeart : Pub := { title := "Heart and lung imaging study",
                        abstract := "A diabetes cohort." }

def artC6 : ArticleXml :=
  { articleIds := [("pubmed", some "1"), ("doi", some "10.1/a"),
                   ("doi", none), ("pii", some "x")] }

/-- Modelled from the amended claim C8: a section is skipped exactly when
its stripped text is empty; a labeled section with non-empty text
contributes `"Label: text"`, an unlabeled one its text. -/
def abstractSpecJoin (sections : List (String × String)) : String :=
  String.intercalate " " (sections.filterMap (fun sec =>
    if sec.2.trim = "" then none
    else if sec.1 ≠ "" then some (sec.1 ++ ": " ++ sec.2.trim)
    else some sec.2.trim))

/-- The join described by claim C8 as stated: a labeled section always
contributes `"Label: text"`; only label-less empty sections are skipped. -/
def abstractClaimJoin (sections : List (String × String)) : String :=
  String.intercalate " " (sections.filterMap (fun sec =>
    if sec.1 ≠ "" then some (sec.1 ++ ": " ++ sec.2.trim)
    else if sec.2.trim ≠ "" then some sec.2.trim
    else none))

def outcomesSecondOk : Nat → Option String := fun i => if i = 1 then some "ok" else none

def pubsYears : List DashPub :=
  [{ year := "2021" }, { year := "" }, { year := "2019" }]

def recY21 : Pub := { year := "2021", title := "b" }

def recY23 : Pub := { year := "2023", title := "a" }

def recY20 : Pub := { year := "2020", title := "c" }

def pubAlphaDoi : Pub := { doi := "10.1/x", title := "Alpha" }

def pubAlphaNoDoi : Pub := { doi := "", title := "Alpha", abstract := "different" }

def base50Title : String := "abcdefghijabcdefghijabcdefghijabcdefghijabcdefghij"

def pubLongOne : Pub := { doi := "", title := base50Title ++ " one" }

def pubLongTwo : Pub := { doi := "", title := base50Title ++ " two" }

def pubTitled : Pub := { title := "Some title" }

/-! ### Lemmas about the merge dictionary -/

lemma dcontains_nil (k : String) : dcontains k [] = false := rfl

lemma dcontains_dinsert_self (k : String) (v : Pub) (d : List (String × Pub)) :
    dcontains k (dinsert k v d) = true := by
  unfold dinsert
  split
  · next hc =>
    unfold dcontains at hc ⊢
    rcases List.any_eq_true.mp hc with ⟨kv, hmem, hk⟩
    have hk' : kv.1 = k := of_decide_eq_true hk
    exact List.any_eq_true.mpr ⟨(k, v), List.mem_map.mpr ⟨kv, hmem, by simp [hk']⟩, by simp⟩
  · unfold dcontains
    exact List.any_eq_true.mpr ⟨(k, v), by simp⟩

lemma dcontains_dinsert_mono (k k' : String) (v : Pub) (d : List (String × Pub))
    (h : dcontains k d = true) : dcontains k (dinsert k' v d) = true := by
  unfold dinsert
  split
  · unfold dcontains at h ⊢
    rcases List.any_eq_true.mp h with ⟨kv, hmem, hk⟩
    refine List.any_eq_true.mpr ⟨if kv.1 = k' then (k', v) else kv,
      List.mem_map.mpr ⟨kv, hmem, rfl⟩, ?_⟩
    split
    · next he => simp only [decide_eq_true_eq] at hk ⊢; rw [← he, hk]
    · exact hk
  · unfold dcontains at h ⊢
    rcases List.any_eq_true.mp h with ⟨kv, hmem, hk⟩
    exact List.any_eq_true.mpr ⟨kv, List.mem_append_left _ hmem, hk⟩

lemma dcontains_primaryInsert (k : String) (d : List (String × Pub)) (p : Pub)
    (h : dcontains k d = true) : dcontains k (primaryInsert d p) = true := by
  unfold primaryInsert
  split
  · exact dcontains_dinsert_mono _ _ _ _ h
  · exact h

lemma dcontains_foldl_primaryInsert (k : String) (l : List Pub)
    (d : List (String × Pub)) (h : dcontains k d = true) :
    dcontains k (l.foldl primaryInsert d) = true := by
  induction l generalizing d with
  | nil => exact h
  | cons p t ih => exact ih _ (dcontains_primaryInsert _ _ _ h)

lemma dcontains_key_of_mem (p : Pub) (l : List Pub) :
    ∀ d, p ∈ l → pubKey p ≠ "" →
      dcontains (pubKey p) (l.foldl primaryInsert d) = true := by
  induction l with
  | nil => intro d hp _; cases hp
  | cons q t ih =>
    intro d hp hk
    rw [List.foldl_cons]
    rcases List.mem_cons.mp hp with rfl | hmem
    · refine dcontains_foldl_primaryInsert _ _ _ ?_
      unfold primaryInsert
      rw [if_pos hk]
      exact dcontains_dinsert_self _ _ _
    · exact ih _ hmem hk

lemma fuzzyDup_empty_title (d : List (String × Pub)) : fuzzyDup "" d = false := by
  unfold fuzzyDup
  simp

lemma pubKey_empty (p : Pub) (h : pubKey p = "") :
    normKey p.doi = "" ∧ normKey p.title = "" := by
  unfold pubKey at h
  by_cases hd : normKey p.doi ≠ ""
  · rw [if_pos hd] at h; exact absurd h hd
  · rw [if_neg hd] at h
    exact ⟨not_ne_iff.mp hd, h⟩

/-- A secondary record whose identity key is already in the dict (or empty)
leaves the dict unchanged. -/
lemma secondaryStep_eq_self (d : List (String × Pub)) (p : Pub)
    (hk : pubKey p ≠ "" → dcontains (pubKey p) d = true) :
    secondaryStep d p = d := by
  unfold secondaryStep
  by_cases hdoi : normKey p.doi ≠ ""
  · have hkey : pubKey p = normKey p.doi := by unfold pubKey; rw [if_pos hdoi]
    have hc := hk (by rw [hkey]; exact hdoi)
    rw [hkey] at hc
    rw [if_pos ⟨hdoi, hc⟩]
  · by_cases htitle : normKey p.title ≠ ""
    · have hkey : pubKey p = normKey p.title := by unfold pubKey; rw [if_neg hdoi]
      have hc := hk (by rw [hkey]; exact htitle)
      rw [hkey] at hc
      rw [if_neg (by tauto), if_pos ⟨htitle, hc⟩]
    · have hd0 : normKey p.doi = "" := not_ne_iff.mp hdoi
      have ht0 : normKey p.title = "" := not_ne_iff.mp htitle
      rw [if_neg (by tauto), if_neg (by tauto)]
      rw [ht0, fuzzyDup_empty_title]
      rw [if_neg (by simp), if_neg (by tauto)]

lemma foldl_secondaryStep_fixed (l : List Pub) (d : List (String × Pub))
    (h : ∀ p ∈ l, secondaryStep d p = d) : l.foldl secondaryStep d = d := by
  induction l with
  | nil => rfl
  | cons p t ih =>
    rw [List.foldl_cons, h p (List.mem_cons_self p t)]
    exact ih (fun q hq => h q (List.mem_cons_of_mem _ hq))

lemma goodDict_nil : goodDict [] := by intro kv h; cases h

lemma goodDict_dinsert (k : String) (v : Pub) (d : List (String × Pub))
    (hd : goodDict d) (hk : k = pubKey v) (hne : k ≠ "") :
    goodDict (dinsert k v d) := by
  unfold dinsert
  split
  · intro kv hkv
    rcases List.mem_map.mp hkv with ⟨kv', hmem, heq⟩
    by_cases hcase : kv'.1 = k
    · rw [if_pos hcase] at heq
      rw [← heq]
      exact ⟨hk, hne⟩
    · rw [if_neg hcase] at heq
      rw [← heq]
      exact hd kv' hmem
  · intro kv hkv
    rcases List.mem_append.mp hkv with hmem | hmem
    · exact hd kv hmem
    · rcases List.mem_singleton.mp hmem with rfl
      exact ⟨hk, hne⟩

lemma goodDict_primaryInsert (d : List (String × Pub)) (p : Pub)
    (hd : goodDict d) : goodDict (primaryInsert d p) := by
  unfold primaryInsert
  split
  · next hk => exact goodDict_dinsert _ _ _ hd rfl hk
  · exact hd

lemma goodDict_secondaryStep (d : List (String × Pub)) (p : Pub)
    (hd : goodDict d) : goodDict (secondaryStep d p) := by
  unfold secondaryStep
  dsimp only
  split
  · exact hd
  · split
    · exact hd
    · split
      · exact hd
      · split
        · next hor =>
          refine goodDict_dinsert _ _ _ hd ?_ ?_
          · unfold pubKey; rfl
          · by_cases hdoi : normKey p.doi ≠ ""
            · rw [if_pos hdoi]; exact hdoi
            · rw [if_neg hdoi]; tauto
        · exact hd

lemma goodDict_foldl_primaryInsert (l : List Pub) (d : List (String × Pub))
    (hd : goodDict d) : goodDict (l.foldl primaryInsert d) := by
  induction l generalizing d with
  | nil => exact hd
  | cons p t ih => exact ih _ (goodDict_primaryInsert _ _ hd)

lemma goodDict_foldl_secondaryStep (l : List Pub) (d : List (String × Pub))
    (hd : goodDict d) : goodDict (l.foldl secondaryStep d) := by
  induction l generalizing d with
  | nil => exact hd
  | cons p t ih => exact ih _ (goodDict_secondaryStep _ _ hd)

/-! ### Claim theorems -/

/-- Claim C1: a primary record and a secondary record whose DOIs are
non-empty and equal after lowercasing and trimming collapse to a single
merged record for that DOI, and that record is the primary record with all
of its field values (its abstract included) retained; the secondary record
contributes nothing. -/
theorem C1_doi_dedup_primary_wins (p s : Pub) (hd : normKey p.doi ≠ "")
    (he : normKey s.doi = normKey p.doi) :
    merge_publications [p] [s] = [p] := by
  unfold merge_publications
  rw [List.foldl_cons, List.foldl_nil, List.foldl_cons, List.foldl_nil]
  have hkp : pubKey p = normKey p.doi := by unfold pubKey; rw [if_pos hd]
  have h1 : primaryInsert [] p = [(normKey p.doi, p)] := by
    unfold primaryInsert
    rw [hkp, if_pos hd]
    simp [dinsert, dcontains]
  rw [h1]
  have hks : pubKey s = normKey p.doi := by
    unfold pubKey; rw [he, if_pos hd]
  have h2 : secondaryStep [(normKey p.doi, p)] s = [(normKey p.doi, p)] := by
    apply secondaryStep_eq_self
    intro _
    rw [hks]
    simp [dcontains]
  rw [h2]
  rfl

unseal String.mapAux Substring.takeWhileAux Substring.takeRightWhileAux in
/-- Witness for C1 at concrete records with equal normalized DOIs and
different abstracts: the merged output is the primary record alone. -/
theorem C1_witness :
    normKey pubPrimX.doi ≠ "" ∧ normKey pubSecX.doi = normKey pubPrimX.doi ∧
      merge_publications [pubPrimX] [pubSecX] = [pubPrimX] :=
  ⟨by decide, by decide,
   C1_doi_dedup_primary_wins pubPrimX pubSecX (by decide) (by decide)⟩

/-- Claim C4: merge is idempotent — re-presenting the primary set as the
secondary source adds no record and changes no record:
`merge_publications S S = merge_publications S []`. -/
theorem C4_merge_idempotent (S : List Pub) :
    merge_publications S S = merge_publications S [] := by
  unfold merge_publications
  rw [List.foldl_nil]
  congr 1
  apply foldl_secondaryStep_fixed
  intro p hp
  exact secondaryStep_eq_self _ _ (fun hk => dcontains_key_of_mem p S [] hp hk)

/-- Claim C10: every record in the merged output has a non-empty identity
key (normalized DOI, or failing that normalized title), and a record whose
DOI and title both normalize to the empty string never appears in the
merged output. -/
theorem C10_nonempty_identity_key (prim sec : List Pub) (v : Pub) :
    (v ∈ merge_publications prim sec →
      normKey v.doi ≠ "" ∨ normKey v.title ≠ "") ∧
    (normKey v.doi = "" → normKey v.title = "" →
      v ∉ merge_publications prim sec) := by
  have main : v ∈ merge_publications prim sec →
      normKey v.doi ≠ "" ∨ normKey v.title ≠ "" := by
    intro hv
    unfold merge_publications at hv
    rcases List.mem_map.mp hv with ⟨kv, hmem, hsnd⟩
    have hgood := goodDict_foldl_secondaryStep sec _
      (goodDict_foldl_primaryInsert prim [] goodDict_nil) kv hmem
    rcases hgood with ⟨hk, hne⟩
    rw [hsnd] at hk
    by_cases hdoi : normKey v.doi ≠ ""
    · exact Or.inl hdoi
    · right
      unfold pubKey at hk
      rw [if_neg hdoi] at hk
      rw [hk] at hne
      exact hne
  refine ⟨main, fun h1 h2 hv => ?_⟩
  rcases main hv with h | h
  · exact h h1
  · exact h h2

/-- Claim C2: `classify_topics` always returns a non-empty list; the result
is exactly `["Other"]` iff no keyword of the table occurs (case-insensitive
substring) in title+abstract; otherwise `"Other"` is absent and the labels
are unique and listed in the iteration order of the table. -/
theorem C2_classify_topics (p : Pub) :
    classify_topics p ≠ [] ∧
    (classify_topics p = ["Other"] ↔
      ∀ tk ∈ TOPIC_KEYWORDS, ∀ kw ∈ tk.2,
        strContains (classifyText p) kw = false) ∧
    ((∃ tk ∈ TOPIC_KEYWORDS, ∃ kw ∈ tk.2,
        strContains (classifyText p) kw = true) →
      "Other" ∉ classify_topics p ∧ (classify_topics p).Nodup ∧
        (classify_topics p).Sublist (TOPIC_KEYWORDS.map Prod.fst)) := by
  have hother : "Other" ∉ TOPIC_KEYWORDS.map Prod.fst := by decide
  have hnodup : (TOPIC_KEYWORDS.map Prod.fst).Nodup := by decide
  have hsub : ((TOPIC_KEYWORDS.filter
        (fun tk => tk.2.any (fun kw => strContains (classifyText p) kw))).map
          Prod.fst).Sublist (TOPIC_KEYWORDS.map Prod.fst) :=
    (List.filter_sublist _).map _
  have hct : classify_topics p =
      if (TOPIC_KEYWORDS.filter
            (fun tk => tk.2.any (fun kw => strContains (classifyText p) kw))).map
              Prod.fst = [] then ["Other"]
      else (TOPIC_KEYWORDS.filter
            (fun tk => tk.2.any (fun kw => strContains (classifyText p) kw))).map
              Prod.fst := rfl
  by_cases hF : (TOPIC_KEYWORDS.filter
      (fun tk => tk.2.any (fun kw => strContains (classifyText p) kw))).map
        Prod.fst = []
  · rw [hct, if_pos hF]
    refine ⟨by simp, ?_, ?_⟩
    · simp only [true_iff]
      rw [List.map_eq_nil_iff, List.filter_eq_nil_iff] at hF
      intro tk htk kw hkw
      have := hF tk htk
      simp only [List.any_eq_true, not_exists, not_and] at this
      have h2 := this kw hkw
      exact Bool.not_eq_true _ ▸ h2
    · rintro ⟨tk, htk, kw, hkw, hc⟩
      rw [List.map_eq_nil_iff, List.filter_eq_nil_iff] at hF
      have := hF tk htk
      simp only [List.any_eq_true, not_exists, not_and] at this
      exact absurd hc (this kw hkw)
  · rw [hct, if_neg hF]
    refine ⟨hF, ?_, ?_⟩
    · constructor
      · intro h
        exfalso
        apply hother
        apply hsub.subset
        rw [h]
        exact List.mem_singleton_self _
      · intro hall
        exfalso
        apply hF
        rw [List.map_eq_nil_iff, List.filter_eq_nil_iff]
        intro tk htk
        simp only [List.any_eq_true, not_exists, not_and]
        intro kw hkw hc
        rw [hall tk htk kw hkw] at hc
        cases hc
    · intro _
      exact ⟨fun hmem => hother (hsub.subset hmem), hnodup.sublist hsub, hsub⟩

unseal String.mapAux in
/-- Witness for C2 at a record matching several topics. -/
theorem C2_witness :
    (∃ tk ∈ TOPIC_KEYWORDS, ∃ kw ∈ tk.2,
        strContains (classifyText pubHeart) kw = true) ∧
      "Other" ∉ classify_topics pubHeart ∧ (classify_topics pubHeart).Nodup ∧
        (classify_topics pubHeart).Sublist (TOPIC_KEYWORDS.map Prod.fst) :=
  ⟨by decide, (C2_classify_topics pubHeart).2.2 (by decide)⟩

lemma parseDoi_foldl_no_doi (post : List (String × Option String)) :
    ∀ acc, (∀ x ∈ post, x.1 ≠ "doi") →
      post.foldl (fun doi eid => if eid.1 = "doi" then eid.2.getD "" else doi) acc
        = acc := by
  induction post with
  | nil => intro acc _; rfl
  | cons e t ih =>
    intro acc h
    rw [List.foldl_cons, if_neg (h e (List.mem_cons_self e t))]
    exact ih acc (fun x hx => h x (List.mem_cons_of_mem _ hx))

/-- Claim C6: when an article's id list contains doi-typed entries, the
parsed record's `doi` is the text of the last doi-typed entry in document
order (empty if its text is missing); earlier doi-typed entries are
overwritten. -/
theorem C6_last_doi_wins (a : ArticleXml) (e : String × Option String)
    (pre post : List (String × Option String))
    (hids : a.articleIds = pre ++ e :: post) (he : e.1 = "doi")
    (hpost : ∀ x ∈ post, x.1 ≠ "doi") :
    (parse_pubmed_article a).doi = e.2.getD "" := by
  have hdoi : (parse_pubmed_article a).doi = parseDoiIds a.articleIds := rfl
  rw [hdoi, hids]
  unfold parseDoiIds
  rw [List.foldl_append, List.foldl_cons]
  simp only [he, if_pos]
  exact parseDoi_foldl_no_doi post _ hpost

/-- Witness for C6: with two doi-typed ids, the later one (with missing
text) wins, yielding the empty string. -/
theorem C6_witness :
    artC6.articleIds = [("pubmed", some "1"), ("doi", some "10.1/a")] ++
      ("doi", (none : Option String)) :: [("pii", some "x")] ∧
      (parse_pubmed_article artC6).doi = (none : Option String).getD "" :=
  ⟨rfl, C6_last_doi_wins artC6 ("doi", none)
    [("pubmed", some "1"), ("doi", some "10.1/a")] [("pii", some "x")]
    rfl rfl (by decide)⟩

lemma abstractParts_eq (l : List (String × String)) :
    ∀ acc, (l.foldl (fun parts sec =>
        let label := sec.1
        let text := sec.2.trim
        if label ≠ "" ∧ text ≠ "" then parts ++ [label ++ ": " ++ text]
        else if text ≠ "" then parts ++ [text]
        else parts) acc)
      = acc ++ l.filterMap (fun sec =>
          if sec.2.trim = "" then none
          else if sec.1 ≠ "" then some (sec.1 ++ ": " ++ sec.2.trim)
          else some sec.2.trim) := by
  induction l with
  | nil => intro acc; simp
  | cons s t ih =>
    intro acc
    rw [List.foldl_cons]
    by_cases htext : s.2.trim = ""
    · have h1 : ¬(s.1 ≠ "" ∧ s.2.trim ≠ "") := by tauto
      have h2 : ¬(s.2.trim ≠ "") := by tauto
      rw [if_neg h1, if_neg h2,
        List.filterMap_cons_none (by simp [htext])]
      exact ih acc
    · by_cases hlabel : s.1 ≠ ""
      · have hg : (fun sec : String × String =>
            if sec.2.trim = "" then none
            else if sec.1 ≠ "" then some (sec.1 ++ ": " ++ sec.2.trim)
            else some sec.2.trim) s = some (s.1 ++ ": " ++ s.2.trim) := by
          simp only [if_neg htext, if_pos hlabel]
        rw [if_pos ⟨hlabel, htext⟩]
        simp only [List.filterMap_cons, hg]
        rw [ih (acc ++ [s.1 ++ ": " ++ s.2.trim])]
        simp
      · have hg : (fun sec : String × String =>
            if sec.2.trim = "" then none
            else if sec.1 ≠ "" then some (sec.1 ++ ": " ++ sec.2.trim)
            else some sec.2.trim) s = some s.2.trim := by
          simp only [if_neg htext, if_neg hlabel]
        rw [if_neg (by tauto), if_pos htext]
        simp only [List.filterMap_cons, hg]
        rw [ih (acc ++ [s.2.trim])]
        simp

/-- Amended claim C8: the parsed abstract is the space-join in which a
section is skipped exactly when its stripped text is empty; a labeled
section with non-empty text contributes `"Label: text"` and an unlabeled
one contributes its text. -/
theorem C8_abstract_join (sections : List (String × String)) :
    parseAbstractSections sections = abstractSpecJoin sections := by
  unfold parseAbstractSections abstractSpecJoin
  rw [abstractParts_eq sections []]
  rfl

unseal Substring.takeWhileAux Substring.takeRightWhileAux in
/-- Counterexample to claim C8 as stated: a labeled section with empty
text is skipped by the code, while the claim renders it. -/
theorem C8_counterexample :
    parseAbstractSections [("BACKGROUND", "")] = "" ∧
      abstractClaimJoin [("BACKGROUND", "")] = "BACKGROUND: " ∧
      ("" : String) ≠ "BACKGROUND: " :=
  ⟨by decide, by decide, by decide⟩

lemma fetchGo_success (outcomes : Nat → Option String)
    (retries delay attempt : Nat) (b : String)
    (h : attempt < retries) (hb : outcomes attempt = some b) :
    fetchGo outcomes retries delay attempt = (some b, attempt + 1, []) := by
  unfold fetchGo
  rw [dif_pos h, hb]

lemma fetchGo_fail_mid (outcomes : Nat → Option String)
    (retries delay attempt : Nat)
    (h1 : attempt < retries - 1) (hb : outcomes attempt = none) :
    fetchGo outcomes retries delay attempt =
      ((fetchGo outcomes retries delay (attempt + 1)).1,
       (fetchGo outcomes retries delay (attempt + 1)).2.1,
       delay * (attempt + 1) :: (fetchGo outcomes retries delay (attempt + 1)).2.2) := by
  have h0 : attempt < retries := by omega
  conv_lhs => unfold fetchGo
  rw [dif_pos h0, hb, if_pos h1]

lemma fetchGo_fail_last (outcomes : Nat → Option String)
    (retries delay attempt : Nat)
    (h0 : attempt < retries) (h1 : ¬ attempt < retries - 1)
    (hb : outcomes attempt = none) :
    fetchGo outcomes retries delay attempt = (none, attempt + 1, []) := by
  unfold fetchGo
  rw [dif_pos h0, hb, if_neg h1]

/-- Claim C9: with the default bound of 3, `fetch_url` makes at most 3
attempts; it returns the body of the first successful attempt (after
sleeping `delay * k` after the `k`-th failed attempt), and when all 3
attempts fail it returns the "no data" value `none` — never an exception —
after sleeping `delay * 1` and `delay * 2` between consecutive attempts. -/
theorem C9_fetch_retry (outcomes : Nat → Option String) (delay : Nat) :
    (fetch_url outcomes 3 delay).2.1 ≤ 3 ∧
    ((∀ i, i < 3 → outcomes i = none) →
      fetch_url outcomes 3 delay = (none, 3, [delay * 1, delay * 2])) ∧
    (∀ i b, i < 3 → outcomes i = some b → (∀ j, j < i → outcomes j = none) →
      fetch_url outcomes 3 delay =
        (some b, i + 1, (List.range i).map (fun j => delay * (j + 1)))) := by
  refine ⟨?_, ?_, ?_⟩
  · unfold fetch_url
    cases h0 : outcomes 0 with
    | some b =>
      rw [fetchGo_success outcomes 3 delay 0 b (by omega) h0]
      norm_num
    | none =>
      rw [fetchGo_fail_mid outcomes 3 delay 0 (by omega) h0]
      cases h1 : outcomes 1 with
      | some b =>
        rw [fetchGo_success outcomes 3 delay 1 b (by omega) h1]
        norm_num
      | none =>
        rw [fetchGo_fail_mid outcomes 3 delay 1 (by omega) h1]
        cases h2 : outcomes 2 with
        | some b => rw [fetchGo_success outcomes 3 delay 2 b (by omega) h2]
        | none => rw [fetchGo_fail_last outcomes 3 delay 2 (by omega) (by omega) h2]
  · intro hall
    unfold fetch_url
    rw [fetchGo_fail_mid outcomes 3 delay 0 (by omega) (hall 0 (by omega)),
      fetchGo_fail_mid outcomes 3 delay 1 (by omega) (hall 1 (by omega)),
      fetchGo_fail_last outcomes 3 delay 2 (by omega) (by omega) (hall 2 (by omega))]
  · intro i b hi hb hprev
    unfold fetch_url
    interval_cases i
    · rw [fetchGo_success outcomes 3 delay 0 b (by omega) hb]
      simp
    · rw [fetchGo_fail_mid outcomes 3 delay 0 (by omega) (hprev 0 (by omega)),
        fetchGo_success outcomes 3 delay 1 b (by omega) hb]
      simp [List.range_succ]
    · rw [fetchGo_fail_mid outcomes 3 delay 0 (by omega) (hprev 0 (by omega)),
        fetchGo_fail_mid outcomes 3 delay 1 (by omega) (hprev 1 (by omega)),
        fetchGo_success outcomes 3 delay 2 b (by omega) hb]
      simp [List.range_succ]

/-- Witness for C9: all attempts failing yields `none` with sleeps
`[delay, 2*delay]`; success on the second attempt returns its body after
one sleep. -/
theorem C9_witness :
    fetch_url (fun _ => none) 3 2 = (none, 3, [2 * 1, 2 * 2]) ∧
      fetch_url outcomesSecondOk 3 2 =
        (some "ok", 1 + 1, (List.range 1).map (fun j => 2 * (j + 1))) :=
  ⟨(C9_fetch_retry (fun _ => none) 2).2.1 (fun _ _ => rfl),
   (C9_fetch_retry outcomesSecondOk 2).2.2 1 "ok" (by omega) rfl
     (fun j hj => by
       have hj0 : j = 0 := by omega
       subst hj0
       rfl)⟩

lemma sorted_head_le {y : String} {t : List String}
    (h : (y :: t).Pairwise (fun a b : String => a ≤ b)) :
    ∀ z ∈ y :: t, y ≤ z := by
  intro z hz
  rcases List.mem_cons.mp hz with rfl | hz'
  · exact le_refl z
  · exact (List.pairwise_cons.mp h).1 z hz'

lemma sorted_le_getLast :
    ∀ (l : List String), l.Pairwise (fun a b : String => a ≤ b) →
      ∀ (hne : l ≠ []) (z : String), z ∈ l → z ≤ l.getLast hne := by
  intro l
  induction l with
  | nil => intro _ hne; exact absurd rfl hne
  | cons y t ih =>
    intro h hne z hz
    cases t with
    | nil =>
      rcases List.mem_singleton.mp hz with rfl
      exact le_refl z
    | cons w t' =>
      rw [List.getLast_cons (List.cons_ne_nil w t')]
      rcases List.mem_cons.mp hz with rfl | hz'
      · exact (List.pairwise_cons.mp h).1 _ (List.getLast_mem _)
      · exact ih (List.pairwise_cons.mp h).2 (List.cons_ne_nil w t') z hz'

lemma sortedYears_sorted (pubs : List DashPub) :
    (sortedYears pubs).Pairwise (fun a b : String => a ≤ b) := by
  unfold sortedYears
  have h := @List.sorted_mergeSort String (fun a b => decide (a ≤ b))
    (fun a b c hab hbc =>
      decide_eq_true (le_trans (of_decide_eq_true hab) (of_decide_eq_true hbc)))
    (fun a b => by rcases le_total a b with h | h <;> simp [h])
    ((nonEmptyYears pubs).dedup)
  exact h.imp (fun hab => of_decide_eq_true hab)

lemma sortedYears_mem (pubs : List DashPub) (y : String) :
    y ∈ sortedYears pubs ↔ y ∈ nonEmptyYears pubs := by
  unfold sortedYears
  rw [(List.mergeSort_perm _ _).mem_iff, List.mem_dedup]

/-- Claim C7: on an empty publications array the renderer substitutes
`"0"` for `%%PUB_COUNT%%` and `"N/A"` for `%%YEAR_RANGE%%`; in general the
year range is built from the minimum and maximum (string comparison) of
the non-empty year strings only. -/
theorem C7_render_summary (template dataJson updateDate : String)
    (pubs : List DashPub) :
    (render_dashboard template dataJson updateDate [] =
      (((template.replace "%%DATA%%" dataJson).replace "%%PUB_COUNT%%"
          "0").replace "%%YEAR_RANGE%%" "N/A").replace "%%UPDATE_DATE%%"
            updateDate) ∧
    (nonEmptyYears pubs = [] → year_range pubs = "N/A") ∧
    (nonEmptyYears pubs ≠ [] →
      ∃ mn mx, year_range pubs = mn ++ "–" ++ mx ∧
        mn ∈ nonEmptyYears pubs ∧ mx ∈ nonEmptyYears pubs ∧
        ∀ y ∈ nonEmptyYears pubs, mn ≤ y ∧ y ≤ mx) := by
  have hempty : ∀ qubs : List DashPub, nonEmptyYears qubs = [] →
      year_range qubs = "N/A" := by
    intro qubs hq
    unfold year_range sortedYears
    rw [hq, List.dedup_nil, List.mergeSort_nil]
  refine ⟨?_, hempty pubs, ?_⟩
  · unfold render_dashboard
    rw [hempty [] rfl]
    rfl
  · intro hne
    have hysne : sortedYears pubs ≠ [] := by
      intro h0
      apply hne
      have hperm := List.mergeSort_perm ((nonEmptyYears pubs).dedup)
        (fun a b => decide (a ≤ b))
      unfold sortedYears at h0
      rw [h0] at hperm
      exact (List.dedup_eq_nil _).mp hperm.symm.eq_nil
    obtain ⟨y, rest, hcons⟩ := List.exists_cons_of_ne_nil hysne
    have hyr : year_range pubs =
        y ++ "–" ++ ((y :: rest).getLast (List.cons_ne_nil y rest)) := by
      unfold year_range
      rw [hcons]
    have hsorted := sortedYears_sorted pubs
    rw [hcons] at hsorted
    refine ⟨y, (y :: rest).getLast (List.cons_ne_nil y rest), hyr, ?_, ?_, ?_⟩
    · rw [← sortedYears_mem, hcons]
      exact List.mem_cons_self y rest
    · rw [← sortedYears_mem, hcons]
      exact List.getLast_mem _
    · intro z hz
      have hzys : z ∈ y :: rest := by
        rw [← hcons, sortedYears_mem]
        exact hz
      exact ⟨sorted_head_le hsorted z hzys,
        sorted_le_getLast (y :: rest) hsorted (List.cons_ne_nil y rest) z hzys⟩

/-- Witness for C7: with years `["2021", "", "2019"]` the year range is
built from minimum and maximum of the non-empty years only. -/
theorem C7_witness :
    ∃ mn mx, year_range pubsYears = mn ++ "–" ++ mx ∧
      mn ∈ nonEmptyYears pubsYears ∧ mx ∈ nonEmptyYears pubsYears ∧
      ∀ y ∈ nonEmptyYears pubsYears, mn ≤ y ∧ y ≤ mx :=
  (C7_render_summary "" "" "" pubsYears).2.2 (by decide)

lemma str_not_lt_empty (s : String) : ¬ s < "" := by
  intro h
  rw [String.lt_iff_toList_lt, String.toList_empty] at h
  exact List.Lex.not_nil_right _ _ h

lemma dashLe_trans : ∀ a b c : DashPub, dashLe a b → dashLe b c → dashLe a c := by
  intro a b c hab hbc
  unfold dashLe at *
  have h1 := of_decide_eq_true hab
  have h2 := of_decide_eq_true hbc
  apply decide_eq_true
  rcases h2 with h2 | ⟨he2, ht2⟩
  · rcases h1 with h1 | ⟨he1, ht1⟩
    · exact Or.inl (lt_trans h2 h1)
    · rw [he1] at h2
      exact Or.inl h2
  · rcases h1 with h1 | ⟨he1, ht1⟩
    · rw [← he2] at h1
      exact Or.inl h1
    · exact Or.inr ⟨he2.trans he1, le_trans ht2 ht1⟩

lemma dashLe_total : ∀ a b : DashPub, dashLe a b || dashLe b a := by
  intro a b
  rw [Bool.or_eq_true]
  unfold dashLe
  simp only [decide_eq_true_eq]
  rcases lt_trichotomy b.year a.year with h | h | h
  · exact Or.inl (Or.inl h)
  · rcases le_total b.title a.title with ht | ht
    · exact Or.inl (Or.inr ⟨h, ht⟩)
    · exact Or.inr (Or.inr ⟨h.symm, ht⟩)
  · exact Or.inr (Or.inl h)

lemma dashLe_empty_year {a b : DashPub} (h : dashLe a b = true)
    (ha : a.year = "") : b.year = "" := by
  have hp := of_decide_eq_true h
  rcases hp with hlt | ⟨heq, _⟩
  · rw [ha] at hlt
    exact absurd hlt (str_not_lt_empty b.year)
  · rw [ha] at heq
    exact heq

unseal List.merge List.mergeSort String.ltb String.mapAux in
/-- Claim C3: `build_dashboard_data` returns the mapped records sorted in
descending lexicographic order of the string pair (year, title); years
`2021, 2023, 2020` come out as `2023, 2021, 2020`, and a record with an
empty year never precedes a record with a non-empty year. -/
theorem C3_build_output_sorted (pubs : List Pub) :
    (build_dashboard_data pubs).Pairwise (fun a b => dashLe a b = true) ∧
    (build_dashboard_data pubs).Perm (pubs.map toDashboard) ∧
    (build_dashboard_data pubs).Pairwise
      (fun a b => a.year = "" → b.year = "") ∧
    build_dashboard_data [recY21, recY23, recY20] =
      [toDashboard recY23, toDashboard recY21, toDashboard recY20] := by
  have hpair := @List.sorted_mergeSort DashPub dashLe dashLe_trans dashLe_total
    (pubs.map toDashboard)
  exact ⟨hpair, List.mergeSort_perm _ _,
    hpair.imp (fun hab ha => dashLe_empty_year hab ha), by decide⟩

unseal String.mapAux Substring.takeWhileAux Substring.takeRightWhileAux in
/-- Counterexample to claim C5 as stated: the secondary record's
normalized-title 50-character prefix equals the already-merged record's
title 50-character prefix, yet the secondary record is NOT treated as a
duplicate — it is added — because the code compares against the existing
record's identity key (here its DOI `10.1/x`), not its title. -/
theorem C5_counterexample :
    (normKey pubAlphaNoDoi.title).take 50 =
        (normKey pubAlphaDoi.title).take 50 ∧
      merge_publications [pubAlphaDoi] [pubAlphaNoDoi] =
        [pubAlphaDoi, pubAlphaNoDoi] :=
  ⟨by decide, by decide⟩

/-- Amended claim C5: once the exact DOI-key and title-key membership
checks have failed, a keyed secondary record is dropped as a fuzzy
duplicate exactly when its non-empty normalized title's first 50
characters equal the first 50 characters of the identity KEY of some
record already in the merged dict (normalized DOI when present, else
normalized title): the prefix comparison is against keys, not titles. -/
theorem C5_fuzzy_dup_on_keys (prim : List Pub) (s : Pub)
    (hdoi : ¬ (normKey s.doi ≠ "" ∧
      dcontains (normKey s.doi) (prim.foldl primaryInsert []) = true))
    (htitle : ¬ (normKey s.title ≠ "" ∧
      dcontains (normKey s.title) (prim.foldl primaryInsert []) = true))
    (hkeyed : normKey s.doi ≠ "" ∨ normKey s.title ≠ "") :
    merge_publications prim [s] = merge_publications prim [] ↔
      ∃ kv ∈ prim.foldl primaryInsert [], normKey s.title ≠ "" ∧ kv.1 ≠ "" ∧
        (normKey s.title).take 50 = kv.1.take 50 := by
  have hstep : merge_publications prim [s] =
      (secondaryStep (prim.foldl primaryInsert []) s).map Prod.snd := rfl
  have hbase : merge_publications prim [] =
      (prim.foldl primaryInsert []).map Prod.snd := rfl
  constructor
  · intro heq
    by_cases hfuzz :
        fuzzyDup (normKey s.title) (prim.foldl primaryInsert []) = true
    · unfold fuzzyDup at hfuzz
      rcases List.any_eq_true.mp hfuzz with ⟨kv, hkv, hb⟩
      rw [Bool.and_eq_true, Bool.and_eq_true, Bool.or_eq_true] at hb
      rcases hb with ⟨⟨ht, hk⟩, hor⟩
      refine ⟨kv, hkv, of_decide_eq_true ht, of_decide_eq_true hk, ?_⟩
      rcases hor with h | h
      · exact of_decide_eq_true h
      · exact (of_decide_eq_true h).symm
    · exfalso
      have hnc : ¬ (dcontains
          (if normKey s.doi ≠ "" then normKey s.doi else normKey s.title)
          (prim.foldl primaryInsert []) = true) := by
        by_cases hds : normKey s.doi ≠ ""
        · rw [if_pos hds]
          exact not_and.mp hdoi hds
        · rw [if_neg hds]
          have hts : normKey s.title ≠ "" := by tauto
          exact not_and.mp htitle hts
      have hstep2 : secondaryStep (prim.foldl primaryInsert []) s =
          prim.foldl primaryInsert [] ++
            [((if normKey s.doi ≠ "" then normKey s.doi else normKey s.title),
              s)] := by
        unfold secondaryStep
        rw [if_neg hdoi, if_neg htitle, if_neg hfuzz, if_pos hkeyed]
        unfold dinsert
        rw [if_neg hnc]
      rw [hstep, hstep2, hbase] at heq
      simp at heq
  · rintro ⟨kv, hkv, ht, hk, hpre⟩
    have hfuzz : fuzzyDup (normKey s.title) (prim.foldl primaryInsert [])
        = true := by
      unfold fuzzyDup
      refine List.any_eq_true.mpr ⟨kv, hkv, ?_⟩
      rw [Bool.and_eq_true, Bool.and_eq_true, Bool.or_eq_true]
      exact ⟨⟨decide_eq_true ht, decide_eq_true hk⟩,
        Or.inl (decide_eq_true hpre)⟩
    have hstep2 : secondaryStep (prim.foldl primaryInsert []) s =
        prim.foldl primaryInsert [] := by
      unfold secondaryStep
      rw [if_neg hdoi, if_neg htitle, if_pos hfuzz]
    rw [hstep, hstep2, hbase]

unseal String.mapAux Substring.takeWhileAux Substring.takeRightWhileAux in
/-- Witness for the amended C5: two DOI-less records whose titles share
their first 50 characters but then differ; the secondary one is dropped
by the fuzzy key-prefix test. -/
theorem C5_witness :
    merge_publications [pubLongOne] [pubLongTwo] =
      merge_publications [pubLongOne] [] :=
  (C5_fuzzy_dup_on_keys [pubLongOne] pubLongTwo (by decide) (by decide)
      (by decide)).mpr
    ⟨(normKey pubLongOne.title, pubLongOne), by decide, by decide, by decide,
      by decide⟩

unseal String.mapAux Substring.takeWhileAux Substring.takeRightWhileAux in
/-- Witness for C10: a titled record survives the merge with a non-empty
identity key, and the record with empty DOI and empty title is dropped. -/
theorem C10_witness :
    (normKey pubTitled.doi ≠ "" ∨ normKey pubTitled.title ≠ "") ∧
      ({} : Pub) ∉ merge_publications [{}, pubTitled] [] :=
  ⟨(C10_nonempty_identity_key [{}, pubTitled] [] pubTitled).1 (by decide),
   (C10_nonempty_identity_key [{}, pubTitled] [] {}).2 (by decide) (by decide)⟩


